import Mathlib

/-!
gopdf: the type `SubsetFontObj` of subset_font_obj.go.

A shallow embedding of the glyph-index resolver, the character-set
accumulator, the per-character queries, the width resolver, the kerning lookup
and the font dictionary builder of `SubsetFontObj`.

Conventions of the embedding.

* Go `uint` and `uint64` are 64-bit words: a natural number, every arithmetic
  operation reduced modulo `2^64` (`uadd`, `usub`, `umul`).
* A `rune` is an `Int` (Go `int32`); `uint(r)` and `uint64(r)` sign-extend,
  which is `r mod 2^64` (`toUint`).
* A Go `(uint, error)` result is a pair `Nat × Option GoError`; a `nil` error
  is `none`.
* A run-time panic (slice index out of range, integer division by zero) is the
  outer `none` of an `Option`: a function that can panic returns
  `Option (Nat × Option GoError)`.
* `map[rune]uint` is a function `Int → Option Nat`; `none` is "not a key". A nil
  map (the field of a subset on which `init` has not run) is marked by the flag
  `nilMap`: it has no key, a read of it finds no key, a write to it panics.
* `for _, runeValue := range txt` walks the runes of the text; the text is
  given as that rune sequence.
* Go `int` is a 64-bit two's complement integer: an `Int`, the addition wrapped
  (`iadd`).
* `bytes.Buffer` is the `String` written so far; `WriteString` appends.
-/

namespace Gopdf

/-- Number of values of a Go `uint` (64-bit word), `2^64`. -/
def wordSize : Nat := 18446744073709551616

/-- First value of a `uint` whose conversion `int(x)` is negative, `2^63`. -/
def intLimit : Nat := 9223372036854775808

/-- Go `a + b` on `uint`. -/
def uadd (a b : Nat) : Nat := (a + b) % wordSize

/-- Go `a - b` on `uint` (wraps around below zero). -/
def usub (a b : Nat) : Nat := (a % wordSize + (wordSize - b % wordSize)) % wordSize

/-- Go `a * b` on `uint`. -/
def umul (a b : Nat) : Nat := (a * b) % wordSize

/-- Go `uint(r)` / `uint64(r)` for a rune `r`. -/
def toUint (r : Int) : Nat := (r % (wordSize : Int)).toNat

/-- Go `xs[int(idx)]` for a `uint` index: `int(idx)` is negative from `2^63` on,
and an index that is negative or not below `len(xs)` panics. -/
def indexInt (xs : List Nat) (idx : Nat) : Option Nat :=
  if idx < intLimit then xs[idx]? else none

/-- The two error values of the file: `ErrCharNotFound` (line 12) and the
`errors.New("not found glyph")` of `charCodeToGlyphIndexFormat12` (line 147). -/
inductive GoError where
  | ErrCharNotFound
  | notFoundGlyph
  deriving DecidableEq, Repr

/-- One entry of `core.TTFParser.GroupingTables()` (cmap format 12): the three
fields read at lines 141-142. -/
structure CmapFormat12GroupingTable where
  StartCharCode : Nat
  EndCharCode : Nat
  GlyphID : Nat
  deriving DecidableEq, Repr

/-- The type `core.KernValue`, a `map[uint]int16` from the right glyph index to
the adjustment. -/
abbrev KernValue := Nat → Option Int

/-- The part of `core.KernTable` read at line 80: the field `Kerning`, a
`map[uint]KernValue` keyed by the left glyph index. -/
structure KernTable where
  Kerning : Nat → Option KernValue := fun _ => none

/-- The part of `TtfOption` read at lines 71 and 89: the field `UseKerning`. -/
structure TtfOption where
  UseKerning : Bool := false

/-- The part of `core.TTFParser` this file reads: the format-4 segment arrays,
the format-12 groups, the horizontal metrics and the result of `Kern()`, a
pointer that is `nil` (`none`) when the font carries no kerning table. -/
structure TTFParser where
  SegCount : Nat := 0
  StartCount : List Nat := []
  EndCount : List Nat := []
  IdRangeOffset : List Nat := []
  IdDelta : List Nat := []
  GlyphIdArray : List Nat := []
  groupingTables : List CmapFormat12GroupingTable := []
  numberOfHMetrics : Nat := 0
  unitsPerEm : Nat := 0
  widths : List Nat := []
  kern : Option KernTable := none

/-- The Go type `map[rune]uint`. -/
abbrev CharMap := Int → Option Nat

/-- The map made by `make(map[rune]uint)`. -/
def CharMap.empty : CharMap := fun _ => none

/-- The map after `m[r] = g`. -/
def CharMap.insert (m : CharMap) (r : Int) (g : Nat) : CharMap :=
  fun k => if k = r then some g else m k

/-- The struct `SubsetFontObj` (lines 15-25): the fields the methods below read
or write. The flag `nilMap` says that the map field `CharacterToGlyphIndex` is
still the nil map of the zero value (then without a key); `init` makes the map
and clears the flag. -/
structure SubsetFontObj where
  buffer : String := ""
  ttfp : TTFParser := {}
  Family : String := ""
  CharacterToGlyphIndex : CharMap := CharMap.empty
  nilMap : Bool := false
  CountOfFont : Int := 0
  indexObjCIDFont : Int := 0
  indexObjUnicodeMap : Int := 0
  ttfFontOption : TtfOption := {}

/-- The method `init` (lines 27-30): a fresh, empty character map, no longer
nil. -/
def SubsetFontObj.init (s : SubsetFontObj) : SubsetFontObj :=
  { s with CharacterToGlyphIndex := CharMap.empty, nilMap := false }

/-- The loop of lines 154-159, started at position `seg` with
`fuel = segCount - seg` iterations left: with no iteration left the loop
condition `seg < segCount` is false and the loop ends at `seg`; otherwise
`EndCount[seg]` is read (a panic when out of range) and the loop breaks at `seg`
when `value <= EndCount[seg]`. -/
def scanSegments (endCount : List Nat) (value : Nat) : Nat → Nat → Option Nat
  | 0, seg => some seg
  | fuel + 1, seg =>
    match endCount[seg]? with
    | none => none
    | some e => if value ≤ e then some seg else scanSegments endCount value fuel (seg + 1)

/-- The method `charCodeToGlyphIndexFormat4` (lines 150-176). -/
def charCodeToGlyphIndexFormat4 (s : SubsetFontObj) (r : Int) : Option (Nat × Option GoError) :=
  let value := toUint r
  let segCount := s.ttfp.SegCount
  match scanSegments s.ttfp.EndCount value segCount 0 with
  | none => none
  | some seg =>
    match s.ttfp.StartCount[seg]? with
    | none => none
    | some start =>
      if value < start then some (0, none)
      else
        match s.ttfp.IdRangeOffset[seg]? with
        | none => none
        | some rangeOffset =>
          if rangeOffset = 0 then
            match s.ttfp.IdDelta[seg]? with
            | none => none
            | some delta => some (uadd value delta &&& 0xFFFF, none)
          else
            let idx := usub (uadd (rangeOffset / 2) (usub value start)) (usub segCount seg)
            match indexInt s.ttfp.GlyphIdArray idx with
            | none => none
            | some entry =>
              if entry = 0 then some (0, none)
              else
                match s.ttfp.IdDelta[seg]? with
                | none => none
                | some delta => some (uadd entry delta &&& 0xFFFF, none)

/-- The loop of lines 140-145 over the groups: the first group with
`StartCharCode <= value < EndCharCode` decides. -/
def scanGroups (value : Nat) : List CmapFormat12GroupingTable → Nat × Option GoError
  | [] => (0, some GoError.notFoundGlyph)
  | gTb :: rest =>
    if gTb.StartCharCode ≤ value ∧ value < gTb.EndCharCode then
      (uadd (usub value gTb.StartCharCode) gTb.GlyphID, none)
    else scanGroups value rest

/-- The method `charCodeToGlyphIndexFormat12` (lines 136-148). -/
def charCodeToGlyphIndexFormat12 (s : SubsetFontObj) (r : Int) : Nat × Option GoError :=
  scanGroups (toUint r) s.ttfp.groupingTables

/-- The method `CharCodeToGlyphIndex` (lines 179-196). -/
def CharCodeToGlyphIndex (s : SubsetFontObj) (r : Int) : Option (Nat × Option GoError) :=
  let value := toUint r
  if value ≤ 0xFFFF then
    match charCodeToGlyphIndexFormat4 s r with
    | none => none
    | some (_, some err) => some (0, some err)
    | some (gIndex, none) => some (gIndex, none)
  else
    match charCodeToGlyphIndexFormat12 s r with
    | (_, some err) => some (0, some err)
    | (gIndex, none) => some (gIndex, none)

/-- The method `GlyphIndexToPdfWidth` (lines 198-211); `Widths()[glyphIndex]`
panics out of range and so does a division by `unitsPerEm = 0`. -/
def GlyphIndexToPdfWidth (s : SubsetFontObj) (glyphIndex : Nat) : Option Nat :=
  let numberOfHMetrics := s.ttfp.numberOfHMetrics
  let unitsPerEm := s.ttfp.unitsPerEm
  let glyphIndex := if glyphIndex ≥ numberOfHMetrics then usub numberOfHMetrics 1 else glyphIndex
  match s.ttfp.widths[glyphIndex]? with
  | none => none
  | some width =>
    if unitsPerEm = 1000 then some width
    else if unitsPerEm = 0 then none
    else some (umul width 1000 / unitsPerEm)

/-- The method `AddChars` (lines 99-111) over the runes of the text. The result
is the subset after the call and the returned error; the outer `none` is a
panic, inside a resolution or at the write of line 108 into a nil map. -/
def AddChars (s : SubsetFontObj) : List Int → Option (SubsetFontObj × Option GoError)
  | [] => some (s, none)
  | runeValue :: rest =>
    match s.CharacterToGlyphIndex runeValue with
    | some _ => AddChars s rest
    | none =>
      match CharCodeToGlyphIndex s runeValue with
      | none => none
      | some (_, some err) => some (s, some err)
      | some (glyphIndex, none) =>
        if s.nilMap then none
        else
          AddChars
            { s with CharacterToGlyphIndex := s.CharacterToGlyphIndex.insert runeValue glyphIndex }
            rest

/-- The method `CharIndex` (lines 113-118). -/
def CharIndex (s : SubsetFontObj) (r : Int) : Nat × Option GoError :=
  match s.CharacterToGlyphIndex r with
  | some index => (index, none)
  | none => (0, some GoError.ErrCharNotFound)

/-- The method `CharWidth` (lines 120-126). -/
def CharWidth (s : SubsetFontObj) (r : Int) : Option (Nat × Option GoError) :=
  let glyphIndex := s.CharacterToGlyphIndex
  match glyphIndex r with
  | some index =>
    match GlyphIndexToPdfWidth s index with
    | none => none
    | some w => some (w, none)
  | none => some (0, some GoError.ErrCharNotFound)

/-- Go `a + b` on `int` (64-bit, two's complement wrap-around). -/
def iadd (a b : Int) : Int :=
  (a + b + (intLimit : Int)) % (wordSize : Int) - (intLimit : Int)

/-- The verb `%d` of `fmt.Sprintf` on an `int`: the decimal digits, with a
leading minus sign for a negative number. -/
def fmtInt : Int → String
  | Int.ofNat n => Nat.repr n
  | Int.negSucc n => "-" ++ Nat.repr (n + 1)

/-- The method `build` (lines 32-43): eight `WriteString` calls append to the
buffer, and the returned error is `nil`. The function
`CreateEmbeddedFontSubsetName`, declared outside this file, is a parameter. -/
def build (CreateEmbeddedFontSubsetName : String → String) (s : SubsetFontObj) :
    SubsetFontObj × Option GoError :=
  let s := { s with buffer := s.buffer ++ "<<\n" }
  let s := { s with buffer := s.buffer ++
    ("/BaseFont /" ++ CreateEmbeddedFontSubsetName s.Family ++ "\n") }
  let s := { s with buffer := s.buffer ++
    ("/DescendantFonts [" ++ fmtInt (iadd s.indexObjCIDFont 1) ++ " 0 R]\n") }
  let s := { s with buffer := s.buffer ++ "/Encoding /Identity-H\n" }
  let s := { s with buffer := s.buffer ++ "/Subtype /Type0\n" }
  let s := { s with buffer := s.buffer ++
    ("/ToUnicode " ++ fmtInt (iadd s.indexObjUnicodeMap 1) ++ " 0 R\n") }
  let s := { s with buffer := s.buffer ++ "/Type /Font\n" }
  let s := { s with buffer := s.buffer ++ ">>\n" }
  (s, none)

/-- The method `SetIndexObjCIDFont` (lines 45-47). -/
def SetIndexObjCIDFont (s : SubsetFontObj) (index : Int) : SubsetFontObj :=
  { s with indexObjCIDFont := index }

/-- The method `SetIndexObjUnicodeMap` (lines 49-51). -/
def SetIndexObjUnicodeMap (s : SubsetFontObj) (index : Int) : SubsetFontObj :=
  { s with indexObjUnicodeMap := index }

/-- The method `SetFamily` (lines 54-56). -/
def SetFamily (s : SubsetFontObj) (familyname : String) : SubsetFontObj :=
  { s with Family := familyname }

/-- The method `SetTtfFontOption` (lines 64-66). -/
def SetTtfFontOption (s : SubsetFontObj) (option : TtfOption) : SubsetFontObj :=
  { s with ttfFontOption := option }

/-- The method `KernValueByLeft` (lines 69-85); the pointer `&kval` is `some kval`
and `nil` is `none`. -/
def KernValueByLeft (s : SubsetFontObj) (left : Nat) : Bool × Option KernValue :=
  if !s.ttfFontOption.UseKerning then (false, none)
  else
    match s.ttfp.kern with
    | none => (false, none)
    | some k =>
      match k.Kerning left with
      | some kval => (true, some kval)
      | none => (false, none)

/-- A run of `AddChars` calls, one per text, each on the subset the call before
left behind, whether that call returned an error or not; `none` when a call
panics. -/
def addCharsSeq (s : SubsetFontObj) : List (List Int) → Option SubsetFontObj
  | [] => some s
  | txt :: rest =>
    match AddChars s txt with
    | none => none
    | some (s', _) => addCharsSeq s' rest

/-- The table of the specification's example: one segment
`[start=0x41, end=0x5A, delta=0, rangeOffset=0]`. -/
def oneSegment : SubsetFontObj :=
  { ttfp := { SegCount := 1, StartCount := [0x41], EndCount := [0x5A],
              IdRangeOffset := [0], IdDelta := [0] } }

/-- The table `oneSegment` followed by the catch-all segment of the TrueType
convention, `[start=0xFFFF, end=0xFFFF, delta=1, rangeOffset=0]`. -/
def withCatchAll : SubsetFontObj :=
  { ttfp := { SegCount := 2, StartCount := [0x41, 0xFFFF], EndCount := [0x5A, 0xFFFF],
              IdRangeOffset := [0, 0], IdDelta := [0, 1] } }

/-- A table whose second segment `[0x61, 0x63]` goes through the glyph-id array
(range offset 4); the last segment is the catch-all. -/
def viaGlyphIdArray : SubsetFontObj :=
  { ttfp := { SegCount := 3, StartCount := [0x41, 0x61, 0xFFFF], EndCount := [0x5A, 0x63, 0xFFFF],
              IdRangeOffset := [0, 4, 0], IdDelta := [0, 3, 1], GlyphIdArray := [7, 0, 65535] } }

/-- The format-12 table of the specification's example: one group
`[start=0x10000, end=0x10100, startGlyph=500]`. -/
def oneGroup : SubsetFontObj :=
  { ttfp := { groupingTables := [⟨0x10000, 0x10100, 500⟩] } }

/-- Two overlapping groups: the first one in list order decides. -/
def twoGroups : SubsetFontObj :=
  { ttfp := { groupingTables := [⟨0x10000, 0x10100, 500⟩, ⟨0x10000, 0x20000, 9000⟩] } }

/-- The subset `oneSegment` after registering the text "AB". -/
def afterAB : SubsetFontObj :=
  { oneSegment with
    CharacterToGlyphIndex := (CharMap.empty.insert 0x41 0x41).insert 0x42 0x42 }

/-- The subset `withCatchAll` after registering the text "A". -/
def afterA : SubsetFontObj :=
  { withCatchAll with CharacterToGlyphIndex := CharMap.empty.insert 0x41 0x41 }

/-- A subset with one registered character, `0x41` stored with glyph index 1,
and metrics for two glyphs at 2048 units per em. -/
def measured : SubsetFontObj :=
  { ttfp := { numberOfHMetrics := 2, unitsPerEm := 2048, widths := [600, 1024] },
    CharacterToGlyphIndex := CharMap.empty.insert 0x41 1 }

/-- A table that declares no horizontal metric: `numberOfHMetrics = 0`. -/
def noHMetrics : SubsetFontObj :=
  { ttfp := { numberOfHMetrics := 0, unitsPerEm := 1000, widths := [500] } }

/-- A table whose `unitsPerEm` is 0. -/
def zeroUnitsPerEm : SubsetFontObj :=
  { ttfp := { numberOfHMetrics := 1, unitsPerEm := 0, widths := [500] } }

/-- A table whose width array is shorter than `numberOfHMetrics`. -/
def shortWidths : SubsetFontObj :=
  { ttfp := { numberOfHMetrics := 3, unitsPerEm := 1000, widths := [500] } }

/-- The dictionary text of the specification (section 4.5) for the base-font
name `N` and the two object numbers `a` and `b` written in decimal. -/
def dictText (N a b : String) : String :=
  "<<\n/BaseFont /" ++ N ++ "\n/DescendantFonts [" ++ a ++
    " 0 R]\n/Encoding /Identity-H\n/Subtype /Type0\n/ToUnicode " ++ b ++ " 0 R\n/Type /Font\n>>\n"

/-- A subset of family "Arial" with `indexObjCIDFont = 5`,
`indexObjUnicodeMap = 6`, an empty buffer and one registered character. -/
def arial : SubsetFontObj :=
  { Family := "Arial", indexObjCIDFont := 5, indexObjUnicodeMap := 6,
    CharacterToGlyphIndex := CharMap.empty.insert 0x41 1 }

/-- The adjustment record of left glyph 3 in `kerned`: right glyph 4 is moved
by -20. -/
def kernOfThree : KernValue := fun right => if right = 4 then some (-20) else none

/-- A subset with kerning enabled and a kerning table with the one left glyph 3. -/
def kerned : SubsetFontObj :=
  { ttfp := { kern := some { Kerning := fun left => if left = 3 then some kernOfThree else none } },
    ttfFontOption := { UseKerning := true } }

/-- The subset `kerned` with kerning disabled by the option. -/
def kerningOff : SubsetFontObj :=
  { kerned with ttfFontOption := { UseKerning := false } }

/-- The subset `afterA` after registering "B" as well. -/
def afterAThenB : SubsetFontObj :=
  { withCatchAll with
    CharacterToGlyphIndex := (CharMap.empty.insert 0x41 0x41).insert 0x42 0x42 }

/-- The subset `oneSegment` on which `init` has not run: the map is nil. -/
def withoutInit : SubsetFontObj :=
  { oneSegment with nilMap := true }

/-! ## Machine arithmetic -/

theorem toUint_lt (r : Int) : toUint r < wordSize := by
  unfold toUint wordSize
  omega

theorem mask16 (x : Nat) : x &&& 0xFFFF = x % 65536 :=
  Nat.and_pow_two_sub_one_eq_mod x 16

theorem uadd_mask16 (a b : Nat) : uadd a b &&& 0xFFFF = (a + b) % 65536 := by
  rw [mask16]
  unfold uadd wordSize
  omega

theorem usub_of_le (a b : Nat) (ha : a < wordSize) (hb : b ≤ a) : usub a b = a - b := by
  unfold usub
  unfold wordSize at *
  omega

/-! ## The segment scan -/

theorem scanSegments_first (endCount : List Nat) (value p e : Nat)
    (he : endCount[p]? = some e) (hve : value ≤ e)
    (hfirst : ∀ k, k < p → ∀ ek, endCount[k]? = some ek → ek < value) :
    ∀ fuel seg, seg ≤ p → p < seg + fuel → scanSegments endCount value fuel seg = some p := by
  intro fuel
  induction fuel with
  | zero => intro seg h1 h2; omega
  | succ n ih =>
    intro seg h1 h2
    rcases Nat.eq_or_lt_of_le h1 with heq | hlt
    · subst heq
      simp [scanSegments, he, hve]
    · have hlen : seg < endCount.length := by
        have hp : p < endCount.length := by
          rcases List.getElem?_eq_some.mp he with ⟨h, _⟩
          exact h
        omega
      have hk := hfirst seg hlt (endCount[seg]) (List.getElem?_eq_getElem hlen)
      simp only [scanSegments, List.getElem?_eq_getElem hlen]
      rw [if_neg (by omega)]
      exact ih (seg + 1) (by omega) (by omega)

theorem scanSegments_exists (endCount : List Nat) (value : Nat) :
    ∀ fuel seg, (∃ p e, seg ≤ p ∧ p < seg + fuel ∧ endCount[p]? = some e ∧ value ≤ e) →
      ∃ q e, seg ≤ q ∧ q < seg + fuel ∧ endCount[q]? = some e ∧ value ≤ e ∧
        (∀ k, seg ≤ k → k < q → ∀ ek, endCount[k]? = some ek → ek < value) ∧
        scanSegments endCount value fuel seg = some q := by
  intro fuel
  induction fuel with
  | zero => rintro seg ⟨p, e, h1, h2, _⟩; omega
  | succ n ih =>
    rintro seg ⟨p, e, h1, h2, he, hve⟩
    have hp : p < endCount.length := (List.getElem?_eq_some.mp he).1
    have hlen : seg < endCount.length := by omega
    by_cases hv : value ≤ endCount[seg]
    · refine ⟨seg, endCount[seg], le_refl _, by omega, List.getElem?_eq_getElem hlen, hv, ?_, ?_⟩
      · intro k h3 h4; omega
      · simp [scanSegments, List.getElem?_eq_getElem hlen, hv]
    · have hne : seg ≠ p := by
        rintro rfl
        rw [List.getElem?_eq_getElem hlen] at he
        cases he
        exact hv hve
      obtain ⟨q, e', h3, h4, h5, h6, h7, h8⟩ :=
        ih (seg + 1) ⟨p, e, by omega, by omega, he, hve⟩
      refine ⟨q, e', by omega, by omega, h5, h6, ?_, ?_⟩
      · intro k hk1 hk2 ek hek
        rcases Nat.eq_or_lt_of_le hk1 with heq | hlt
        · subst heq
          rw [List.getElem?_eq_getElem hlen] at hek
          cases hek
          omega
        · exact h7 k hlt hk2 ek hek
      · simp only [scanSegments, List.getElem?_eq_getElem hlen, if_neg hv]
        exact h8

/-! ## Format-4 lookup -/

theorem format4_no_error (s : SubsetFontObj) (r : Int) (g : Nat) (err : GoError) :
    charCodeToGlyphIndexFormat4 s r ≠ some (g, some err) := by
  unfold charCodeToGlyphIndexFormat4
  intro h
  simp only at h
  repeat' split at h
  all_goals simp at h

theorem CharCodeToGlyphIndex_low (s : SubsetFontObj) (r : Int) (h : toUint r ≤ 0xFFFF) :
    CharCodeToGlyphIndex s r = charCodeToGlyphIndexFormat4 s r := by
  unfold CharCodeToGlyphIndex
  simp only [h, if_true]
  split
  · rename_i h1; exact h1.symm
  · rename_i g err h1; exact absurd h1 (format4_no_error s r g err)
  · rename_i g h1; exact h1.symm

/-- C1. Format-4 lookup with range offset zero: when the first segment whose end
code is at least the code point `c <= 0xFFFF` (position `p`, end code `e`) has
start code `st <= c`, range offset 0 and delta `d`, `CharCodeToGlyphIndex`
returns `(c + d) mod 65536` with a nil error. -/
theorem format4_zero_range_offset (s : SubsetFontObj) (r : Int) (p e st d : Nat)
    (hc : toUint r ≤ 0xFFFF)
    (hp : p < s.ttfp.SegCount)
    (he : s.ttfp.EndCount[p]? = some e) (hce : toUint r ≤ e)
    (hfirst : ∀ k, k < p → ∀ ek, s.ttfp.EndCount[k]? = some ek → ek < toUint r)
    (hs : s.ttfp.StartCount[p]? = some st) (hsc : st ≤ toUint r)
    (hro : s.ttfp.IdRangeOffset[p]? = some 0)
    (hd : s.ttfp.IdDelta[p]? = some d) :
    CharCodeToGlyphIndex s r = some ((toUint r + d) % 65536, none) := by
  rw [CharCodeToGlyphIndex_low s r hc]
  have hscan := scanSegments_first s.ttfp.EndCount (toUint r) p e he hce hfirst
    s.ttfp.SegCount 0 (Nat.zero_le p) (by omega)
  unfold charCodeToGlyphIndexFormat4
  simp only [hscan, hs, hro, hd, if_neg (Nat.not_lt.mpr hsc), if_true, uadd_mask16]

/-- Witness of C1: the specification's table with the single segment
`[0x41, 0x5A, delta 0, rangeOffset 0]` maps `0x41` to glyph `0x41`. -/
theorem format4_zero_range_offset_witness :
    CharCodeToGlyphIndex oneSegment 0x41 = some (0x41, none) :=
  format4_zero_range_offset oneSegment 0x41 0 0x5A 0x41 0 (by decide) (by decide)
    (by decide) (by decide) (fun k hk => absurd hk (Nat.not_lt_zero k))
    (by decide) (by decide) (by decide) (by decide)

/-- C2, as stated, fails: in the specification's own table with the single
segment `[0x41, 0x5A, delta 0, rangeOffset 0]` the code point `0x5B` is at most
`0xFFFF` and inside no segment's range, the scan leaves `seg = SegCount = 1`, and
the read `StartCount[1]` is out of range: the lookup panics instead of returning
glyph 0. -/
theorem format4_unmapped_counterexample :
    toUint 0x5B ≤ 0xFFFF ∧
    (∀ k st e : Nat, oneSegment.ttfp.StartCount[k]? = some st →
      oneSegment.ttfp.EndCount[k]? = some e → ¬ (st ≤ toUint 0x5B ∧ toUint 0x5B ≤ e)) ∧
    scanSegments oneSegment.ttfp.EndCount (toUint 0x5B) oneSegment.ttfp.SegCount 0 = some 1 ∧
    oneSegment.ttfp.StartCount[1]? = none ∧
    CharCodeToGlyphIndex oneSegment 0x5B = none ∧
    CharCodeToGlyphIndex oneSegment 0x5B ≠ some (0, none) := by
  refine ⟨by decide, ?_, by decide, by decide, by decide, by decide⟩
  intro k st e hst he
  cases k with
  | zero =>
    have h1 : st = 0x41 := by simpa [oneSegment] using hst.symm
    have h2 : e = 0x5A := by simpa [oneSegment] using he.symm
    subst h1 h2
    decide
  | succ n => simp [oneSegment] at hst

/-- C2, amended: when every segment below `SegCount` has a start and an end code
and none of their ranges contains the code point `c <= 0xFFFF`, and some segment
has an end code at least `c` (as the catch-all trailing segment guarantees),
`CharCodeToGlyphIndex` returns glyph 0 with a nil error. -/
theorem format4_unmapped_is_zero (s : SubsetFontObj) (r : Int)
    (hc : toUint r ≤ 0xFFFF)
    (hno : ∀ k, k < s.ttfp.SegCount → ∃ st e, s.ttfp.StartCount[k]? = some st ∧
      s.ttfp.EndCount[k]? = some e ∧ ¬ (st ≤ toUint r ∧ toUint r ≤ e))
    (hex : ∃ p e, p < s.ttfp.SegCount ∧ s.ttfp.EndCount[p]? = some e ∧ toUint r ≤ e) :
    CharCodeToGlyphIndex s r = some (0, none) := by
  rw [CharCodeToGlyphIndex_low s r hc]
  obtain ⟨p, e, hp, he, hve⟩ := hex
  obtain ⟨q, e', _, hq, hqe, hqv, _, hscan⟩ :=
    scanSegments_exists s.ttfp.EndCount (toUint r) s.ttfp.SegCount 0
      ⟨p, e, Nat.zero_le p, by omega, he, hve⟩
  obtain ⟨st, e'', hst, he'', hnot⟩ := hno q (by omega)
  rw [hqe] at he''
  cases he''
  have hlt : toUint r < st := by
    by_contra hcon
    exact hnot ⟨by omega, hqv⟩
  unfold charCodeToGlyphIndexFormat4
  simp only [hscan, hst, if_pos hlt]

/-- Witness of C2 (amended): with the catch-all segment after `[0x41, 0x5A]`, the
code point `0x5B` just past the range maps to glyph 0. -/
theorem format4_unmapped_is_zero_witness :
    CharCodeToGlyphIndex withCatchAll 0x5B = some (0, none) :=
  format4_unmapped_is_zero withCatchAll 0x5B (by decide)
    (by
      intro k hk
      have hk2 : k < 2 := hk
      interval_cases k
      · exact ⟨0x41, 0x5A, by decide, by decide, by decide⟩
      · exact ⟨0xFFFF, 0xFFFF, by decide, by decide, by decide⟩)
    ⟨1, 0xFFFF, by decide, by decide, by decide⟩

/-- C3. Format-4 lookup through the glyph-id array: when the first segment
whose end code is at least the code point `c <= 0xFFFF` (position `p`) has start
code `st <= c`, a non-zero range offset `ro` and delta `d`, and
`idx = ro/2 + (c - st) - (SegCount - p)` is a position of `GlyphIdArray` holding
`entry`, `CharCodeToGlyphIndex` returns glyph 0 when `entry = 0` and
`(entry + d) mod 65536` otherwise, with a nil error in both cases. -/
theorem format4_nonzero_range_offset (s : SubsetFontObj) (r : Int) (p e st ro d entry : Nat)
    (hc : toUint r ≤ 0xFFFF)
    (hp : p < s.ttfp.SegCount)
    (he : s.ttfp.EndCount[p]? = some e) (hce : toUint r ≤ e)
    (hfirst : ∀ k, k < p → ∀ ek, s.ttfp.EndCount[k]? = some ek → ek < toUint r)
    (hs : s.ttfp.StartCount[p]? = some st) (hsc : st ≤ toUint r)
    (hro : s.ttfp.IdRangeOffset[p]? = some ro) (hro0 : ro ≠ 0)
    (hd : s.ttfp.IdDelta[p]? = some d)
    (hidx : s.ttfp.SegCount - p ≤ ro / 2 + (toUint r - st))
    (hentry : indexInt s.ttfp.GlyphIdArray
      (ro / 2 + (toUint r - st) - (s.ttfp.SegCount - p)) = some entry) :
    CharCodeToGlyphIndex s r =
      some (if entry = 0 then 0 else (entry + d) % 65536, none) := by
  rw [CharCodeToGlyphIndex_low s r hc]
  have hscan := scanSegments_first s.ttfp.EndCount (toUint r) p e he hce hfirst
    s.ttfp.SegCount 0 (Nat.zero_le p) (by omega)
  have hlim : ro / 2 + (toUint r - st) - (s.ttfp.SegCount - p) < intLimit := by
    unfold indexInt at hentry
    by_contra hcon
    rw [if_neg hcon] at hentry
    cases hentry
  have hidxeq : usub (uadd (ro / 2) (usub (toUint r) st)) (usub s.ttfp.SegCount p)
      = ro / 2 + (toUint r - st) - (s.ttfp.SegCount - p) := by
    unfold usub uadd
    unfold intLimit at hlim
    unfold wordSize
    omega
  unfold charCodeToGlyphIndexFormat4
  simp only [hscan, hs, hro, hd, if_neg (Nat.not_lt.mpr hsc), if_neg hro0, hidxeq, hentry,
    uadd_mask16]
  by_cases h0 : entry = 0
  · simp [h0]
  · simp [h0]

/-- Witness of C3: in `viaGlyphIdArray` the code point `0x61` selects segment 1
(range offset 4), `idx = 4/2 + 0 - (3 - 1) = 0`, the entry is 7 and the glyph is
`7 + 3 = 10`. -/
theorem format4_nonzero_range_offset_witness :
    CharCodeToGlyphIndex viaGlyphIdArray 0x61 = some (10, none) :=
  format4_nonzero_range_offset viaGlyphIdArray 0x61 1 0x63 0x61 4 3 7 (by decide) (by decide)
    (by decide) (by decide)
    (by
      intro k hk ek hek
      have hk0 : k = 0 := by omega
      subst hk0
      have h1 : ek = 0x5A := by simpa [viaGlyphIdArray] using hek.symm
      subst h1
      decide)
    (by decide) (by decide) (by decide) (by decide) (by decide) (by decide) (by decide)

/-! ## Format-12 lookup -/

theorem scanGroups_first (value : Nat) (hv : value < wordSize) :
    ∀ (gTbs : List CmapFormat12GroupingTable) (i : Nat) (g : CmapFormat12GroupingTable),
      gTbs[i]? = some g → g.StartCharCode ≤ value → value < g.EndCharCode →
      (∀ j, j < i → ∀ g', gTbs[j]? = some g' →
        ¬ (g'.StartCharCode ≤ value ∧ value < g'.EndCharCode)) →
      scanGroups value gTbs = (((value - g.StartCharCode) + g.GlyphID) % wordSize, none) := by
  intro gTbs
  induction gTbs with
  | nil => intro i g hg; simp at hg
  | cons hd tl ih =>
    intro i g hg h1 h2 hfirst
    cases i with
    | zero =>
      simp only [List.getElem?_cons_zero, Option.some.injEq] at hg
      subst hg
      simp only [scanGroups, h1, h2, and_self, if_true, uadd, usub_of_le value _ hv h1]
    | succ n =>
      have hhd := hfirst 0 (Nat.succ_pos n) hd (by simp)
      simp only [scanGroups, if_neg hhd]
      refine ih n g (by simpa using hg) h1 h2 ?_
      intro j hj g' hg'
      exact hfirst (j + 1) (by omega) g' (by simpa using hg')

theorem scanGroups_error_iff (value : Nat) :
    ∀ (gTbs : List CmapFormat12GroupingTable),
      (scanGroups value gTbs = (0, some GoError.notFoundGlyph) ↔
        ∀ g, g ∈ gTbs → ¬ (g.StartCharCode ≤ value ∧ value < g.EndCharCode)) ∧
      (∀ gi err, scanGroups value gTbs = (gi, some err) →
        gi = 0 ∧ err = GoError.notFoundGlyph) := by
  intro gTbs
  induction gTbs with
  | nil => simp [scanGroups]
  | cons hd tl ih =>
    by_cases hm : hd.StartCharCode ≤ value ∧ value < hd.EndCharCode
    · simp only [scanGroups, if_pos hm]
      refine ⟨⟨fun h => by simp at h, fun h => absurd hm (h hd (List.mem_cons_self hd tl))⟩, ?_⟩
      intro gi err h
      simp at h
    · simp only [scanGroups, if_neg hm]
      refine ⟨?_, ih.2⟩
      rw [ih.1]
      constructor
      · intro h g hg
        rcases List.mem_cons.mp hg with rfl | hg'
        · exact hm
        · exact h g hg'
      · intro h g hg
        exact h g (List.mem_cons_of_mem hd hg)

theorem CharCodeToGlyphIndex_high (s : SubsetFontObj) (r : Int) (h : 0xFFFF < toUint r) :
    CharCodeToGlyphIndex s r = some (charCodeToGlyphIndexFormat12 s r) := by
  unfold CharCodeToGlyphIndex
  simp only [if_neg (Nat.not_le.mpr h)]
  split
  · rename_i g err h1
    have h2 := (scanGroups_error_iff (toUint r) s.ttfp.groupingTables).2 g err h1
    rw [h1, h2.1]
  · rename_i g h1
    rw [h1]

/-- C4. Format-12 lookup: for a code point `c > 0xFFFF` and the first group in
list order with `StartCharCode <= c < EndCharCode` (position `i`),
`CharCodeToGlyphIndex` returns `(c - StartCharCode) + GlyphID` of that group with
a nil error; the sum is a `uint` sum, the plain sum whenever it fits the word.
Matching groups after position `i` play no part. -/
theorem format12_first_group (s : SubsetFontObj) (r : Int) (i : Nat)
    (g : CmapFormat12GroupingTable)
    (hc : 0xFFFF < toUint r)
    (hg : s.ttfp.groupingTables[i]? = some g)
    (hstart : g.StartCharCode ≤ toUint r) (hend : toUint r < g.EndCharCode)
    (hfirst : ∀ j, j < i → ∀ g', s.ttfp.groupingTables[j]? = some g' →
      ¬ (g'.StartCharCode ≤ toUint r ∧ toUint r < g'.EndCharCode)) :
    CharCodeToGlyphIndex s r
        = some (((toUint r - g.StartCharCode) + g.GlyphID) % wordSize, none) ∧
      ((toUint r - g.StartCharCode) + g.GlyphID < wordSize →
        CharCodeToGlyphIndex s r = some ((toUint r - g.StartCharCode) + g.GlyphID, none)) := by
  have h := scanGroups_first (toUint r) (toUint_lt r) s.ttfp.groupingTables i g hg hstart hend
    hfirst
  have h2 : CharCodeToGlyphIndex s r
      = some (((toUint r - g.StartCharCode) + g.GlyphID) % wordSize, none) := by
    rw [CharCodeToGlyphIndex_high s r hc, charCodeToGlyphIndexFormat12, h]
  refine ⟨h2, fun hfit => ?_⟩
  rw [h2, Nat.mod_eq_of_lt hfit]

/-- Witness of C4: with the overlapping groups of `twoGroups`, `0x10050` is
resolved by the first group (`0x50 + 500`), not by the second (`0x50 + 9000`). -/
theorem format12_first_group_witness :
    CharCodeToGlyphIndex twoGroups 0x10050 = some (0x50 + 500, none) :=
  (format12_first_group twoGroups 0x10050 0 ⟨0x10000, 0x10100, 500⟩ (by decide) (by decide)
    (by decide) (by decide) (fun j hj => absurd hj (Nat.not_lt_zero j))).2 (by decide)

/-- C5. For a code point above `0xFFFF`, `CharCodeToGlyphIndex` returns glyph 0
with the "not found glyph" error exactly when no group has
`StartCharCode <= c < EndCharCode`, it returns no other error, and it always
returns; for a code point up to `0xFFFF` it returns no error at all. -/
theorem glyph_not_found_iff (s : SubsetFontObj) (r : Int) :
    (0xFFFF < toUint r →
      (CharCodeToGlyphIndex s r = some (0, some GoError.notFoundGlyph) ↔
        ∀ g, g ∈ s.ttfp.groupingTables →
          ¬ (g.StartCharCode ≤ toUint r ∧ toUint r < g.EndCharCode)) ∧
      (∀ gi err, CharCodeToGlyphIndex s r = some (gi, some err) →
        gi = 0 ∧ err = GoError.notFoundGlyph) ∧
      CharCodeToGlyphIndex s r ≠ none) ∧
    (toUint r ≤ 0xFFFF → ∀ gi err, CharCodeToGlyphIndex s r ≠ some (gi, some err)) := by
  constructor
  · intro hc
    have h := scanGroups_error_iff (toUint r) s.ttfp.groupingTables
    rw [CharCodeToGlyphIndex_high s r hc]
    refine ⟨?_, ?_, by simp⟩
    · rw [← h.1]
      simp [charCodeToGlyphIndexFormat12]
    · intro gi err hres
      exact h.2 gi err (by simpa [charCodeToGlyphIndexFormat12] using hres)
  · intro hc gi err
    rw [CharCodeToGlyphIndex_low s r hc]
    exact format4_no_error s r gi err

/-- Witness of C5: with the group `[0x10000, 0x10100)` the code point `0x10100`,
equal to the group's end code, is not matched and fails with "not found glyph",
and the format-4 lookup of `0x41` in `oneSegment` returns no such error. -/
theorem glyph_not_found_iff_witness :
    CharCodeToGlyphIndex oneGroup 0x10100 = some (0, some GoError.notFoundGlyph) ∧
    CharCodeToGlyphIndex oneSegment 0x41 ≠ some (0, some GoError.notFoundGlyph) :=
  ⟨((glyph_not_found_iff oneGroup 0x10100).1 (by decide)).1.mpr (by
      intro g hg
      have hg' : g = ⟨0x10000, 0x10100, 500⟩ := by simpa [oneGroup] using hg
      subst hg'
      decide),
   (glyph_not_found_iff oneSegment 0x41).2 (by decide) 0 GoError.notFoundGlyph⟩

/-- C6. `CharCodeToGlyphIndex` is the format-4 segment lookup for a rune whose
unsigned value is at most `0xFFFF` and the format-12 grouping lookup above
`0xFFFF`, with the same glyph index and the same error; the test reads the value
alone, for every table. -/
theorem dispatch_by_magnitude (s : SubsetFontObj) (r : Int) :
    CharCodeToGlyphIndex s r =
      if toUint r ≤ 0xFFFF then charCodeToGlyphIndexFormat4 s r
      else some (charCodeToGlyphIndexFormat12 s r) := by
  by_cases h : toUint r ≤ 0xFFFF
  · rw [if_pos h]
    exact CharCodeToGlyphIndex_low s r h
  · rw [if_neg h]
    exact CharCodeToGlyphIndex_high s r (Nat.lt_of_not_le h)

/-! ## The character-set accumulator -/

theorem CharCodeToGlyphIndex_congr (s s' : SubsetFontObj) (h : s'.ttfp = s.ttfp) (r : Int) :
    CharCodeToGlyphIndex s' r = CharCodeToGlyphIndex s r := by
  unfold CharCodeToGlyphIndex charCodeToGlyphIndexFormat4 charCodeToGlyphIndexFormat12
  rw [h]

theorem CharCodeToGlyphIndex_error_zero (s : SubsetFontObj) (r : Int) (g : Nat) (err : GoError)
    (h : CharCodeToGlyphIndex s r = some (g, some err)) : g = 0 := by
  by_cases hc : toUint r ≤ 0xFFFF
  · rw [CharCodeToGlyphIndex_low s r hc] at h
    exact absurd h (format4_no_error s r g err)
  · rw [CharCodeToGlyphIndex_high s r (Nat.lt_of_not_le hc)] at h
    simp only [Option.some.injEq] at h
    exact ((scanGroups_error_iff (toUint r) s.ttfp.groupingTables).2 g err h).1

theorem AddChars_cons_key (s : SubsetFontObj) (r : Int) (rest : List Int) (g : Nat)
    (h : s.CharacterToGlyphIndex r = some g) : AddChars s (r :: rest) = AddChars s rest := by
  simp only [AddChars, h]

theorem AddChars_cons_panic (s : SubsetFontObj) (r : Int) (rest : List Int)
    (h : s.CharacterToGlyphIndex r = none) (hr : CharCodeToGlyphIndex s r = none) :
    AddChars s (r :: rest) = none := by
  simp only [AddChars, h, hr]

theorem AddChars_cons_error (s : SubsetFontObj) (r : Int) (rest : List Int) (g : Nat)
    (err : GoError)
    (h : s.CharacterToGlyphIndex r = none) (hr : CharCodeToGlyphIndex s r = some (g, some err)) :
    AddChars s (r :: rest) = some (s, some err) := by
  simp only [AddChars, h, hr]

theorem AddChars_cons_nil (s : SubsetFontObj) (r : Int) (rest : List Int) (g : Nat)
    (h : s.CharacterToGlyphIndex r = none) (hr : CharCodeToGlyphIndex s r = some (g, none))
    (hnil : s.nilMap = true) :
    AddChars s (r :: rest) = none := by
  simp only [AddChars, h, hr, hnil, if_true]

theorem AddChars_cons_insert (s : SubsetFontObj) (r : Int) (rest : List Int) (g : Nat)
    (h : s.CharacterToGlyphIndex r = none) (hr : CharCodeToGlyphIndex s r = some (g, none))
    (hnil : s.nilMap = false) :
    AddChars s (r :: rest) =
      AddChars { s with CharacterToGlyphIndex := s.CharacterToGlyphIndex.insert r g } rest := by
  simp only [AddChars, h, hr, hnil, Bool.false_eq_true, if_false]

/-- The five ways one step of the loop of `AddChars` can go. -/
theorem AddChars_cons_cases (s : SubsetFontObj) (r : Int) :
    (∃ g, s.CharacterToGlyphIndex r = some g) ∨
    (s.CharacterToGlyphIndex r = none ∧ CharCodeToGlyphIndex s r = none) ∨
    (s.CharacterToGlyphIndex r = none ∧ ∃ g err, CharCodeToGlyphIndex s r = some (g, some err)) ∨
    (s.CharacterToGlyphIndex r = none ∧
      ∃ g, CharCodeToGlyphIndex s r = some (g, none) ∧ s.nilMap = true) ∨
    (s.CharacterToGlyphIndex r = none ∧
      ∃ g, CharCodeToGlyphIndex s r = some (g, none) ∧ s.nilMap = false) := by
  cases hm : s.CharacterToGlyphIndex r with
  | some g => exact Or.inl ⟨g, rfl⟩
  | none =>
    right
    cases hr : CharCodeToGlyphIndex s r with
    | none => exact Or.inl ⟨rfl, rfl⟩
    | some pr =>
      right
      rcases pr with ⟨g, _ | err⟩
      · right
        cases hnil : s.nilMap with
        | true => exact Or.inl ⟨rfl, g, rfl, rfl⟩
        | false => exact Or.inr ⟨rfl, g, rfl, rfl⟩
      · exact Or.inl ⟨rfl, g, err, rfl⟩

theorem AddChars_spec : ∀ (txt : List Int) (s s' : SubsetFontObj) (e : Option GoError),
    AddChars s txt = some (s', e) →
      s' = { s with CharacterToGlyphIndex := s'.CharacterToGlyphIndex } ∧
      (∀ x g, s.CharacterToGlyphIndex x = some g → s'.CharacterToGlyphIndex x = some g) ∧
      (∀ x g, s'.CharacterToGlyphIndex x = some g →
        s.CharacterToGlyphIndex x = some g ∨
          (x ∈ txt ∧ CharCodeToGlyphIndex s x = some (g, none))) ∧
      (e = none → ∀ x, x ∈ txt → s'.CharacterToGlyphIndex x ≠ none) := by
  intro txt
  induction txt with
  | nil =>
    intro s s' e h
    simp only [AddChars, Option.some.injEq, Prod.mk.injEq] at h
    obtain ⟨rfl, rfl⟩ := h
    refine ⟨rfl, fun x g h => h, fun x g h => Or.inl h, fun _ x hx => by simp at hx⟩
  | cons r rest ih =>
    intro s s' e h
    rcases AddChars_cons_cases s r with ⟨g, hm⟩ | ⟨hm, hr⟩ | ⟨hm, g, err, hr⟩ |
      ⟨hm, g, hr, hnil⟩ | ⟨hm, g, hr, hnil⟩
    · rw [AddChars_cons_key s r rest g hm] at h
      obtain ⟨h1, h2, h3, h4⟩ := ih s s' e h
      refine ⟨h1, h2, ?_, ?_⟩
      · intro x g' hx
        rcases h3 x g' hx with h5 | ⟨h5, h6⟩
        · exact Or.inl h5
        · exact Or.inr ⟨List.mem_cons_of_mem r h5, h6⟩
      · intro he x hx
        rcases List.mem_cons.mp hx with rfl | hx'
        · rw [h2 x g hm]; simp
        · exact h4 he x hx'
    · rw [AddChars_cons_panic s r rest hm hr] at h
      cases h
    · rw [AddChars_cons_error s r rest g err hm hr] at h
      simp only [Option.some.injEq, Prod.mk.injEq] at h
      obtain ⟨rfl, rfl⟩ := h
      refine ⟨rfl, fun x g h => h, fun x g h => Or.inl h, fun he => by simp at he⟩
    · rw [AddChars_cons_nil s r rest g hm hr hnil] at h
      cases h
    · rw [AddChars_cons_insert s r rest g hm hr hnil] at h
      obtain ⟨h1, h2, h3, h4⟩ := ih _ s' e h
      have hins : ∀ x, x ≠ r →
          (CharMap.insert s.CharacterToGlyphIndex r g) x = s.CharacterToGlyphIndex x := by
        intro x hx
        simp [CharMap.insert, hx]
      have hinsr : (CharMap.insert s.CharacterToGlyphIndex r g) r = some g := by
        simp [CharMap.insert]
      refine ⟨?_, ?_, ?_, ?_⟩
      · rw [h1]
      · intro x g' hx
        apply h2
        have hxr : x ≠ r := by
          rintro rfl
          rw [hm] at hx
          cases hx
        simp only [hins x hxr, hx]
      · intro x g' hx
        by_cases hxr : x = r
        · subst hxr
          have := h2 x g hinsr
          rw [this] at hx
          cases hx
          exact Or.inr ⟨List.mem_cons_self x rest, hr⟩
        · rcases h3 x g' hx with h5 | ⟨h5, h6⟩
          · left
            simpa only [hins x hxr] using h5
          · right
            refine ⟨List.mem_cons_of_mem r h5, ?_⟩
            rw [← h6]
            exact (CharCodeToGlyphIndex_congr s _ rfl x).symm
      · intro he x hx
        rcases List.mem_cons.mp hx with rfl | hx'
        · rw [h2 x g hinsr]; simp
        · exact h4 he x hx'

theorem AddChars_all_keys : ∀ (txt : List Int) (s : SubsetFontObj),
    (∀ x, x ∈ txt → s.CharacterToGlyphIndex x ≠ none) → AddChars s txt = some (s, none) := by
  intro txt
  induction txt with
  | nil => intro s _; rfl
  | cons r rest ih =>
    intro s h
    have hr := h r (List.mem_cons_self r rest)
    obtain ⟨g, hg⟩ := Option.ne_none_iff_exists'.mp hr
    rw [AddChars_cons_key s r rest g hg]
    exact ih s (fun x hx => h x (List.mem_cons_of_mem r hx))

theorem AddChars_append : ∀ (t1 t2 : List Int) (s s1 : SubsetFontObj),
    AddChars s t1 = some (s1, none) → AddChars s (t1 ++ t2) = AddChars s1 t2 := by
  intro t1
  induction t1 with
  | nil =>
    intro t2 s s1 h
    simp only [AddChars, Option.some.injEq, Prod.mk.injEq, and_true] at h
    subst h
    rfl
  | cons r rest ih =>
    intro t2 s s1 h
    rcases AddChars_cons_cases s r with ⟨g, hm⟩ | ⟨hm, hr⟩ | ⟨hm, g, err, hr⟩ |
      ⟨hm, g, hr, hnil⟩ | ⟨hm, g, hr, hnil⟩
    · rw [AddChars_cons_key s r rest g hm] at h
      rw [List.cons_append, AddChars_cons_key s r _ g hm]
      exact ih t2 s s1 h
    · rw [AddChars_cons_panic s r rest hm hr] at h
      cases h
    · rw [AddChars_cons_error s r rest g err hm hr] at h
      simp at h
    · rw [AddChars_cons_nil s r rest g hm hr hnil] at h
      cases h
    · rw [AddChars_cons_insert s r rest g hm hr hnil] at h
      rw [List.cons_append, AddChars_cons_insert s r _ g hm hr hnil]
      exact ih t2 _ s1 h

theorem AddChars_returns : ∀ (txt : List Int) (s : SubsetFontObj),
    s.nilMap = false →
    (∀ c, c ∈ txt → CharCodeToGlyphIndex s c ≠ none) → AddChars s txt ≠ none := by
  intro txt
  induction txt with
  | nil => intro s _ _; simp [AddChars]
  | cons r rest ih =>
    intro s hmade h
    have hrest : ∀ c, c ∈ rest → CharCodeToGlyphIndex s c ≠ none :=
      fun c hc => h c (List.mem_cons_of_mem r hc)
    rcases AddChars_cons_cases s r with ⟨g, hm⟩ | ⟨hm, hr⟩ | ⟨hm, g, err, hr⟩ |
      ⟨hm, g, hr, hnil⟩ | ⟨hm, g, hr, hnil⟩
    · rw [AddChars_cons_key s r rest g hm]
      exact ih s hmade hrest
    · exact absurd hr (h r (List.mem_cons_self r rest))
    · rw [AddChars_cons_error s r rest g err hm hr]
      simp
    · rw [hmade] at hnil
      cases hnil
    · rw [AddChars_cons_insert s r rest g hm hr hnil]
      refine ih { s with CharacterToGlyphIndex := s.CharacterToGlyphIndex.insert r g } hmade ?_
      intro c hc
      have hcongr := CharCodeToGlyphIndex_congr s
        { s with CharacterToGlyphIndex := s.CharacterToGlyphIndex.insert r g } rfl c
      rw [hcongr]
      exact hrest c hc

theorem AddChars_error : ∀ (txt : List Int) (s s' : SubsetFontObj) (err : GoError),
    AddChars s txt = some (s', some err) →
      ∃ pre c post, txt = pre ++ c :: post ∧
        s.CharacterToGlyphIndex c = none ∧
        CharCodeToGlyphIndex s c = some (0, some err) ∧
        (∀ x, x ∈ pre → s.CharacterToGlyphIndex x ≠ none ∨
          ∃ g, CharCodeToGlyphIndex s x = some (g, none)) ∧
        s'.CharacterToGlyphIndex c = none ∧
        (∀ x g, s'.CharacterToGlyphIndex x = some g →
          s.CharacterToGlyphIndex x = some g ∨ x ∈ pre) := by
  intro txt
  induction txt with
  | nil => intro s s' err h; simp [AddChars] at h
  | cons r rest ih =>
    intro s s' err h
    rcases AddChars_cons_cases s r with ⟨g, hm⟩ | ⟨hm, hr⟩ | ⟨hm, g, e', hr⟩ |
      ⟨hm, g, hr, hnil⟩ | ⟨hm, g, hr, hnil⟩
    · rw [AddChars_cons_key s r rest g hm] at h
      obtain ⟨pre, c, post, h1, h2, h3, h4, h5, h6⟩ := ih s s' err h
      refine ⟨r :: pre, c, post, by rw [h1]; rfl, h2, h3, ?_, h5, ?_⟩
      · intro x hx
        rcases List.mem_cons.mp hx with rfl | hx'
        · left; rw [hm]; simp
        · exact h4 x hx'
      · intro x g' hx
        rcases h6 x g' hx with h7 | h7
        · exact Or.inl h7
        · exact Or.inr (List.mem_cons_of_mem r h7)
    · rw [AddChars_cons_panic s r rest hm hr] at h
      cases h
    · rw [AddChars_cons_error s r rest g e' hm hr] at h
      simp only [Option.some.injEq, Prod.mk.injEq] at h
      obtain ⟨rfl, rfl⟩ := h
      have hg := CharCodeToGlyphIndex_error_zero s r g e' hr
      subst hg
      exact ⟨[], r, rest, rfl, hm, hr, fun x hx => by simp at hx, hm, fun x g h => Or.inl h⟩
    · rw [AddChars_cons_nil s r rest g hm hr hnil] at h
      cases h
    · rw [AddChars_cons_insert s r rest g hm hr hnil] at h
      obtain ⟨pre, c, post, h1, h2, h3, h4, h5, h6⟩ := ih _ s' err h
      have hcr : c ≠ r := by
        rintro rfl
        simp [CharMap.insert] at h2
      have hins : ∀ x, x ≠ r →
          (CharMap.insert s.CharacterToGlyphIndex r g) x = s.CharacterToGlyphIndex x := by
        intro x hx
        simp [CharMap.insert, hx]
      refine ⟨r :: pre, c, post, by rw [h1]; rfl, ?_, ?_, ?_, h5, ?_⟩
      · simpa only [hins c hcr] using h2
      · rw [← h3]
        exact (CharCodeToGlyphIndex_congr s _ rfl c).symm
      · intro x hx
        rcases List.mem_cons.mp hx with rfl | hx'
        · exact Or.inr ⟨g, hr⟩
        · by_cases hxr : x = r
          · subst hxr
            exact Or.inr ⟨g, hr⟩
          · rcases h4 x hx' with h7 | ⟨g', h7⟩
            · left
              simpa only [hins x hxr] using h7
            · right
              refine ⟨g', ?_⟩
              rw [← h7]
              exact (CharCodeToGlyphIndex_congr s _ rfl x).symm
      · intro x g' hx
        by_cases hxr : x = r
        · subst hxr
          exact Or.inr (List.mem_cons_self x pre)
        · rcases h6 x g' hx with h7 | h7
          · left
            simpa only [hins x hxr] using h7
          · exact Or.inr (List.mem_cons_of_mem r h7)

/-- C7. `AddChars` has set semantics: when `AddChars(t1)` succeeds and the
following `AddChars(t2)` succeeds, a single `AddChars` of `t1` followed by `t2`
succeeds with the same subset (hence the same `CharacterToGlyphIndex`); a second
`AddChars(t1)` changes nothing; and when every character of `t2` occurs in `t1`
the second call changes nothing. -/
theorem addChars_set_semantics (s s1 s2 : SubsetFontObj) (t1 t2 : List Int)
    (h1 : AddChars s t1 = some (s1, none)) (h2 : AddChars s1 t2 = some (s2, none)) :
    AddChars s (t1 ++ t2) = some (s2, none) ∧
    AddChars s1 t1 = some (s1, none) ∧
    ((∀ x, x ∈ t2 → x ∈ t1) → s2 = s1) := by
  have hkeys := (AddChars_spec t1 s s1 none h1).2.2.2 rfl
  refine ⟨?_, AddChars_all_keys t1 s1 hkeys, ?_⟩
  · rw [AddChars_append t1 t2 s s1 h1, h2]
  · intro hsub
    have h3 := AddChars_all_keys t2 s1 (fun x hx => hkeys x (hsub x hx))
    rw [h3] at h2
    simp only [Option.some.injEq, Prod.mk.injEq, and_true] at h2
    exact h2.symm

/-- Witness of C7: on `oneSegment`, registering "AB" and then "BA" gives the same
subset as registering "ABBA" at once, and the same as registering "AB" once. -/
theorem addChars_set_semantics_witness :
    AddChars oneSegment [0x41, 0x42] = some (afterAB, none) ∧
    AddChars afterAB [0x42, 0x41] = some (afterAB, none) ∧
    AddChars oneSegment ([0x41, 0x42] ++ [0x42, 0x41]) = some (afterAB, none) ∧
    AddChars afterAB [0x41, 0x42] = some (afterAB, none) :=
  have h1 : AddChars oneSegment [0x41, 0x42] = some (afterAB, none) := rfl
  have h2 : AddChars afterAB [0x42, 0x41] = some (afterAB, none) := rfl
  have h := addChars_set_semantics oneSegment afterAB afterAB [0x41, 0x42] [0x42, 0x41] h1 h2
  ⟨h1, h2, h.1, h.2.1⟩

/-- C8, as stated, fails: a call of `AddChars` that panics returns no error,
whatever the text holds. In `oneSegment` the text `[0x5B, 0x20000]` has the
character `0x20000`, not a key and failing its resolution, yet the call panics
at `0x5B` (`StartCount[1]` out of range). On the nil map of a subset without
`init` the text `[0x41, 0x20000]` panics at the write of `0x41`. -/
theorem addChars_error_iff_counterexample :
    (0x20000 ∈ [(0x5B : Int), 0x20000] ∧
      oneSegment.CharacterToGlyphIndex 0x20000 = none ∧
      CharCodeToGlyphIndex oneSegment 0x20000 = some (0, some GoError.notFoundGlyph) ∧
      CharCodeToGlyphIndex oneSegment 0x5B = none ∧
      AddChars oneSegment [0x5B, 0x20000] = none ∧
      ∀ s' err, AddChars oneSegment [0x5B, 0x20000] ≠ some (s', some err)) ∧
    (0x20000 ∈ [(0x41 : Int), 0x20000] ∧
      withoutInit.CharacterToGlyphIndex 0x20000 = none ∧
      CharCodeToGlyphIndex withoutInit 0x20000 = some (0, some GoError.notFoundGlyph) ∧
      AddChars withoutInit [0x41, 0x20000] = none ∧
      ∀ s' err, AddChars withoutInit [0x41, 0x20000] ≠ some (s', some err)) := by
  have h1 : AddChars oneSegment [0x5B, 0x20000] = none := rfl
  have h2 : AddChars withoutInit [0x41, 0x20000] = none := rfl
  refine ⟨⟨by decide, rfl, by decide, by decide, h1, ?_⟩, ⟨by decide, rfl, by decide, h2, ?_⟩⟩
  · intro s' err h
    rw [h1] at h
    cases h
  · intro s' err h
    rw [h2] at h
    cases h

/-- C8, amended. Error propagation of `AddChars` for every call that returns.
When the map is not nil and the resolution of every character of the text
returns, `AddChars` returns. Whenever it returns, it returns an error exactly
when the text has a character that is not a key of the starting map and whose
`CharCodeToGlyphIndex` returns an error; that error is the resolution error of
the first such character `c` of the text (`txt = pre ++ c :: post`, no such
character in `pre`), `c` is not a key afterwards, and every key that was added
occurs in `pre`, before `c`. -/
theorem addChars_error_iff (s : SubsetFontObj) (txt : List Int) :
    (s.nilMap = false → (∀ c, c ∈ txt → CharCodeToGlyphIndex s c ≠ none) →
      AddChars s txt ≠ none) ∧
    (∀ s' e, AddChars s txt = some (s', e) →
      (e ≠ none ↔ ∃ c, c ∈ txt ∧ s.CharacterToGlyphIndex c = none ∧
        ∃ g err, CharCodeToGlyphIndex s c = some (g, some err)) ∧
      (∀ err, e = some err →
        ∃ pre c post, txt = pre ++ c :: post ∧
          s.CharacterToGlyphIndex c = none ∧
          CharCodeToGlyphIndex s c = some (0, some err) ∧
          (∀ x, x ∈ pre → ¬ (s.CharacterToGlyphIndex x = none ∧
            ∃ g err', CharCodeToGlyphIndex s x = some (g, some err'))) ∧
          s'.CharacterToGlyphIndex c = none ∧
          (∀ x g, s'.CharacterToGlyphIndex x = some g →
            s.CharacterToGlyphIndex x = some g ∨ x ∈ pre))) := by
  refine ⟨AddChars_returns txt s, ?_⟩
  intro s' e h
  have hfirst : ∀ err, e = some err →
      ∃ pre c post, txt = pre ++ c :: post ∧
        s.CharacterToGlyphIndex c = none ∧
        CharCodeToGlyphIndex s c = some (0, some err) ∧
        (∀ x, x ∈ pre → ¬ (s.CharacterToGlyphIndex x = none ∧
          ∃ g err', CharCodeToGlyphIndex s x = some (g, some err'))) ∧
        s'.CharacterToGlyphIndex c = none ∧
        (∀ x g, s'.CharacterToGlyphIndex x = some g →
          s.CharacterToGlyphIndex x = some g ∨ x ∈ pre) := by
    intro err he
    subst he
    obtain ⟨pre, c, post, h1, h2, h3, h4, h5, h6⟩ := AddChars_error txt s s' err h
    refine ⟨pre, c, post, h1, h2, h3, ?_, h5, h6⟩
    rintro x hx ⟨hnone, g, err', hres⟩
    rcases h4 x hx with h7 | ⟨g', h7⟩
    · exact h7 hnone
    · rw [h7] at hres
      simp at hres
  refine ⟨⟨?_, ?_⟩, hfirst⟩
  · intro he
    obtain ⟨err, herr⟩ := Option.ne_none_iff_exists'.mp he
    obtain ⟨pre, c, post, h1, h2, h3, -, -, -⟩ := hfirst err herr
    exact ⟨c, by rw [h1]; simp, h2, 0, err, h3⟩
  · rintro ⟨c, hc, hnone, g, err, hres⟩ he
    obtain ⟨-, -, h3, h4⟩ := AddChars_spec txt s s' e h
    obtain ⟨g', hg'⟩ := Option.ne_none_iff_exists'.mp (h4 he c hc)
    rcases h3 c g' hg' with h5 | ⟨-, h5⟩
    · rw [hnone] at h5
      cases h5
    · rw [hres] at h5
      simp at h5

/-- Witness of C8 (amended): in `withCatchAll` (no format-12 group) the text
`[0x41, 0x20000, 0x42]` returns; the call ends with "not found glyph", the
resolution error of `0x20000`, after inserting `0x41` only. -/
theorem addChars_error_iff_witness :
    AddChars withCatchAll [0x41, 0x20000, 0x42] = some (afterA, some GoError.notFoundGlyph) ∧
    AddChars withCatchAll [0x41, 0x20000, 0x42] ≠ none ∧
    (∃ c, c ∈ [0x41, 0x20000, 0x42] ∧ withCatchAll.CharacterToGlyphIndex c = none ∧
      ∃ g err, CharCodeToGlyphIndex withCatchAll c = some (g, some err)) :=
  ⟨rfl,
   (addChars_error_iff withCatchAll [0x41, 0x20000, 0x42]).1 rfl (by
      intro c hc
      simp only [List.mem_cons, List.mem_singleton, List.not_mem_nil, or_false] at hc
      rcases hc with rfl | rfl | rfl <;> decide),
   (((addChars_error_iff withCatchAll [0x41, 0x20000, 0x42]).2 afterA
      (some GoError.notFoundGlyph) rfl).1).mp (by simp)⟩

/-! ## Per-character queries -/

/-- C9. `CharIndex(r)` returns the stored glyph index with a nil error when `r`
is a key of `CharacterToGlyphIndex` and `(0, ErrCharNotFound)` when it is not.
After a successful `AddChars(txt)` on a fresh (`init`) subset, `CharIndex(c)`
returns the glyph index resolved by `CharCodeToGlyphIndex(c)` with a nil error
for every character `c` of `txt`, and `(0, ErrCharNotFound)` for every other
character. -/
theorem charIndex_lookup (s : SubsetFontObj) :
    (∀ r g, s.CharacterToGlyphIndex r = some g → CharIndex s r = (g, none)) ∧
    (∀ r, s.CharacterToGlyphIndex r = none →
      CharIndex s r = (0, some GoError.ErrCharNotFound)) ∧
    (∀ txt s', AddChars s.init txt = some (s', none) →
      (∀ c, c ∈ txt →
        ∃ g, CharCodeToGlyphIndex s' c = some (g, none) ∧ CharIndex s' c = (g, none)) ∧
      (∀ c, c ∉ txt → CharIndex s' c = (0, some GoError.ErrCharNotFound))) := by
  refine ⟨?_, ?_, ?_⟩
  · intro r g h
    simp only [CharIndex, h]
  · intro r h
    simp only [CharIndex, h]
  · intro txt s' h
    obtain ⟨h1, -, h3, h4⟩ := AddChars_spec txt s.init s' none h
    have httfp : s'.ttfp = s.init.ttfp := by rw [h1]
    constructor
    · intro c hc
      obtain ⟨g, hg⟩ := Option.ne_none_iff_exists'.mp (h4 rfl c hc)
      refine ⟨g, ?_, by simp only [CharIndex, hg]⟩
      rcases h3 c g hg with h5 | ⟨-, h5⟩
      · simp [SubsetFontObj.init, CharMap.empty] at h5
      · rw [CharCodeToGlyphIndex_congr s.init s' httfp c]
        exact h5
    · intro c hc
      cases hm : s'.CharacterToGlyphIndex c with
      | none => simp only [CharIndex, hm]
      | some g =>
        rcases h3 c g hm with h5 | ⟨h5, -⟩
        · simp [SubsetFontObj.init, CharMap.empty] at h5
        · exact absurd h5 hc

/-- Witness of C9: after registering "AB" on the fresh `oneSegment`, `CharIndex`
of `0x42` is its resolved glyph `0x42`, and `CharIndex` of the never registered
`0x43` is `(0, ErrCharNotFound)`. -/
theorem charIndex_lookup_witness :
    CharIndex afterAB 0x42 = (0x42, none) ∧
    CharIndex afterAB 0x43 = (0, some GoError.ErrCharNotFound) ∧
    (∃ g, CharCodeToGlyphIndex afterAB 0x41 = some (g, none) ∧ CharIndex afterAB 0x41 = (g, none)) ∧
    CharIndex afterAB 0x5A = (0, some GoError.ErrCharNotFound) :=
  have h : AddChars oneSegment.init [0x41, 0x42] = some (afterAB, none) := rfl
  ⟨(charIndex_lookup afterAB).1 0x42 0x42 rfl,
   (charIndex_lookup afterAB).2.1 0x43 rfl,
   ((charIndex_lookup oneSegment).2.2 [0x41, 0x42] afterAB h).1 0x41 (by decide),
   ((charIndex_lookup oneSegment).2.2 [0x41, 0x42] afterAB h).2 0x5A (by decide)⟩

/-- C10. `CharWidth(r)` is `CharIndex(r)` pushed through the width resolver:
when `r` is a key with stored glyph index `g` (so `CharIndex(r) = (g, nil)`), it
returns `GlyphIndexToPdfWidth(g)` with a nil error; when `r` is not a key it
returns `(0, ErrCharNotFound)`, the result of `CharIndex(r)`. -/
theorem charWidth_lookup (s : SubsetFontObj) (r : Int) :
    (∀ g, s.CharacterToGlyphIndex r = some g →
      CharIndex s r = (g, none) ∧
      CharWidth s r = (GlyphIndexToPdfWidth s g).map (fun w => (w, none))) ∧
    (s.CharacterToGlyphIndex r = none →
      CharWidth s r = some (0, some GoError.ErrCharNotFound) ∧
      CharWidth s r = some (CharIndex s r)) := by
  constructor
  · intro g h
    refine ⟨by simp only [CharIndex, h], ?_⟩
    simp only [CharWidth, h]
    cases GlyphIndexToPdfWidth s g <;> rfl
  · intro h
    simp only [CharWidth, CharIndex, h, and_self]

/-- Witness of C10: in `measured`, `0x41` is stored with glyph index 1, whose
width 1024 at 2048 units per em resolves to 500; `0x42` is not a key. -/
theorem charWidth_lookup_witness :
    GlyphIndexToPdfWidth measured 1 = some 500 ∧
    CharWidth measured 0x41 = some (500, none) ∧
    CharWidth measured 0x42 = some (0, some GoError.ErrCharNotFound) :=
  ⟨by decide,
   ((charWidth_lookup measured 0x41).1 1 rfl).2,
   ((charWidth_lookup measured 0x42).2 rfl).1⟩

/-! ## The width resolver -/

theorem width_index_in_range (s : SubsetFontObj) (g : Nat)
    (hn : 1 ≤ s.ttfp.numberOfHMetrics)
    (hlen : s.ttfp.numberOfHMetrics ≤ s.ttfp.widths.length) :
    (if g ≥ s.ttfp.numberOfHMetrics then usub s.ttfp.numberOfHMetrics 1 else g)
      < s.ttfp.widths.length := by
  split
  · unfold usub wordSize
    omega
  · omega

/-- C11. Width clamp: with `1 <= numberOfHMetrics` (a `uint`) and a width array
of at least `numberOfHMetrics` entries, `GlyphIndexToPdfWidth(g)` for
`g >= numberOfHMetrics` equals `GlyphIndexToPdfWidth(numberOfHMetrics - 1)`, and
for `g < numberOfHMetrics` it is computed from the entry `Widths()[g]` itself. -/
theorem width_clamp (s : SubsetFontObj) (g : Nat)
    (hn : 1 ≤ s.ttfp.numberOfHMetrics)
    (hword : s.ttfp.numberOfHMetrics < wordSize)
    (hlen : s.ttfp.numberOfHMetrics ≤ s.ttfp.widths.length) :
    (s.ttfp.numberOfHMetrics ≤ g →
      GlyphIndexToPdfWidth s g = GlyphIndexToPdfWidth s (s.ttfp.numberOfHMetrics - 1)) ∧
    (g < s.ttfp.numberOfHMetrics →
      ∃ w, s.ttfp.widths[g]? = some w ∧
        GlyphIndexToPdfWidth s g =
          if s.ttfp.unitsPerEm = 1000 then some w
          else if s.ttfp.unitsPerEm = 0 then none
          else some (umul w 1000 / s.ttfp.unitsPerEm)) := by
  constructor
  · intro hg
    have h1 : usub s.ttfp.numberOfHMetrics 1 = s.ttfp.numberOfHMetrics - 1 :=
      usub_of_le _ 1 hword hn
    have h2 : ¬ (s.ttfp.numberOfHMetrics - 1 ≥ s.ttfp.numberOfHMetrics) := by omega
    unfold GlyphIndexToPdfWidth
    simp only [if_pos (show g ≥ s.ttfp.numberOfHMetrics from hg), if_neg h2, h1]
  · intro hg
    have hlt : g < s.ttfp.widths.length := by omega
    refine ⟨s.ttfp.widths[g], List.getElem?_eq_getElem hlt, ?_⟩
    unfold GlyphIndexToPdfWidth
    simp only [if_neg (show ¬ (g ≥ s.ttfp.numberOfHMetrics) by omega),
      List.getElem?_eq_getElem hlt]

/-- Witness of C11: in `measured` (two metrics) glyph index 7 resolves like glyph
index 1, and glyph index 0 uses its own entry 600. -/
theorem width_clamp_witness :
    GlyphIndexToPdfWidth measured 7 = GlyphIndexToPdfWidth measured (2 - 1) ∧
    (∃ w, measured.ttfp.widths[0]? = some w ∧
      GlyphIndexToPdfWidth measured 0 = some (umul w 1000 / 2048)) :=
  ⟨(width_clamp measured 7 (by decide) (by decide) (by decide)).1 (by decide),
   (width_clamp measured 0 (by decide) (by decide) (by decide)).2 (by decide)⟩

/-- C12. Unit scaling: for a glyph index `g < numberOfHMetrics` with stored width
`w`, `GlyphIndexToPdfWidth(g)` is `w` when `unitsPerEm` is 1000, and otherwise,
for `unitsPerEm > 0` and `w * 1000` within the machine word, the truncated
quotient `w * 1000 / unitsPerEm`. -/
theorem unit_scaling (s : SubsetFontObj) (g w : Nat)
    (hg : g < s.ttfp.numberOfHMetrics) (hw : s.ttfp.widths[g]? = some w) :
    (s.ttfp.unitsPerEm = 1000 → GlyphIndexToPdfWidth s g = some w) ∧
    (s.ttfp.unitsPerEm ≠ 1000 → 0 < s.ttfp.unitsPerEm → w * 1000 < wordSize →
      GlyphIndexToPdfWidth s g = some (w * 1000 / s.ttfp.unitsPerEm)) := by
  have hng : ¬ (g ≥ s.ttfp.numberOfHMetrics) := by omega
  constructor
  · intro hu
    unfold GlyphIndexToPdfWidth
    simp only [if_neg hng, hw, hu, if_true]
  · intro hu hpos hfit
    unfold GlyphIndexToPdfWidth
    simp only [if_neg hng, hw, if_neg hu, if_neg (Nat.pos_iff_ne_zero.mp hpos), umul,
      Nat.mod_eq_of_lt hfit]

/-- Witness of C12: `unitsPerEm = 2048` and stored width 1024 resolve to
`1024 * 1000 / 2048 = 500`. -/
theorem unit_scaling_witness :
    GlyphIndexToPdfWidth measured 1 = some (1024 * 1000 / 2048) ∧ 1024 * 1000 / 2048 = 500 :=
  ⟨(unit_scaling measured 1 1024 (by decide) (by decide)).2 (by decide) (by decide) (by decide),
   by decide⟩

/-- C17, as stated, fails: `GlyphIndexToPdfWidth` panics on the table with
`numberOfHMetrics = 0` (the clamp gives index `0 - 1 = 2^64 - 1`), on the table
with `unitsPerEm = 0` (division by zero), and on the table whose width array is
shorter than `numberOfHMetrics`. -/
theorem width_never_fails_counterexample :
    GlyphIndexToPdfWidth noHMetrics 0 = none ∧
    GlyphIndexToPdfWidth zeroUnitsPerEm 0 = none ∧
    GlyphIndexToPdfWidth shortWidths 2 = none := by
  refine ⟨by decide, by decide, by decide⟩

/-- C17, amended: with `numberOfHMetrics >= 1`, a width array of at least
`numberOfHMetrics` entries and `unitsPerEm` not 0, `GlyphIndexToPdfWidth`
returns a width for every glyph index. -/
theorem width_returns (s : SubsetFontObj) (g : Nat)
    (hn : 1 ≤ s.ttfp.numberOfHMetrics)
    (hlen : s.ttfp.numberOfHMetrics ≤ s.ttfp.widths.length)
    (hu : s.ttfp.unitsPerEm ≠ 0) :
    ∃ w, GlyphIndexToPdfWidth s g = some w := by
  have hidx := width_index_in_range s g hn hlen
  unfold GlyphIndexToPdfWidth
  simp only [List.getElem?_eq_getElem hidx, if_neg hu]
  split
  · exact ⟨_, rfl⟩
  · exact ⟨_, rfl⟩

/-- Witness of C17 (amended): `measured` has two metrics, two widths and 2048
units per em, and glyph index 40000 gets a width. -/
theorem width_returns_witness : ∃ w, GlyphIndexToPdfWidth measured 40000 = some w :=
  width_returns measured 40000 (by decide) (by decide) (by decide)

/-! ## Kerning lookup -/

/-- C13. `KernValueByLeft(left)` returns `true` with a record `kv` exactly when
`UseKerning` is set, `Kern()` is not nil and `left` is a key of its `Kerning`
map with value `kv`; in every other case it returns `(false, nil)`. With
`UseKerning` unset it returns `(false, nil)` whatever the kerning table. -/
theorem kernValueByLeft_iff (s : SubsetFontObj) (left : Nat) :
    (∀ kv, KernValueByLeft s left = (true, some kv) ↔
      (s.ttfFontOption.UseKerning = true ∧
        ∃ k, s.ttfp.kern = some k ∧ k.Kerning left = some kv)) ∧
    ((KernValueByLeft s left).1 = true ↔
      (s.ttfFontOption.UseKerning = true ∧
        ∃ k kv, s.ttfp.kern = some k ∧ k.Kerning left = some kv)) ∧
    (¬ (s.ttfFontOption.UseKerning = true ∧
        ∃ k kv, s.ttfp.kern = some k ∧ k.Kerning left = some kv) →
      KernValueByLeft s left = (false, none)) ∧
    (s.ttfFontOption.UseKerning = false → KernValueByLeft s left = (false, none)) := by
  unfold KernValueByLeft
  cases hu : s.ttfFontOption.UseKerning with
  | false => simp
  | true =>
    cases hk : s.ttfp.kern with
    | none => simp
    | some k =>
      cases hl : k.Kerning left with
      | none => simp [hl]
      | some kv => simp [hl]

/-- Witness of C13: `kerned` reports the record of left glyph 3 and nothing for
left glyph 5; with the same table and kerning disabled, left glyph 3 gets
`(false, nil)`. -/
theorem kernValueByLeft_iff_witness :
    KernValueByLeft kerned 3 = (true, some kernOfThree) ∧
    KernValueByLeft kerned 5 = (false, none) ∧
    KernValueByLeft kerningOff 3 = (false, none) :=
  ⟨((kernValueByLeft_iff kerned 3).1 kernOfThree).mpr ⟨rfl, _, rfl, rfl⟩,
   (kernValueByLeft_iff kerned 5).2.2.1 (by
      rintro ⟨-, k, kv, hk, hkv⟩
      have hk' : k = { Kerning := fun left => if left = 3 then some kernOfThree else none } := by
        simpa [kerned] using hk.symm
      subst hk'
      simp at hkv),
   (kernValueByLeft_iff kerningOff 3).2.2.2 rfl⟩

/-! ## The font dictionary -/

theorem iadd_one (i : Int) (hlo : -(intLimit : Int) ≤ i + 1) (hhi : i + 1 < (intLimit : Int)) :
    iadd i 1 = i + 1 := by
  unfold iadd
  unfold intLimit at *
  unfold wordSize
  omega

/-- C14. For every subset (family `F`, `indexObjCIDFont = i`,
`indexObjUnicodeMap = j`) and name function `CreateEmbeddedFontSubsetName`,
`build` returns a nil error and changes only the buffer, to which it appends
exactly the dictionary text for `N = CreateEmbeddedFontSubsetName(F)` and the
Go sums `i+1` and `j+1` in decimal (the plain sums when they fit an `int`); on
an empty buffer the buffer is that text; any subset with the same family and
indices gets the same text. -/
theorem build_dictionary (CreateEmbeddedFontSubsetName : String → String) (s : SubsetFontObj) :
    build CreateEmbeddedFontSubsetName s =
      ({ s with buffer := (s.buffer ++ dictText (CreateEmbeddedFontSubsetName s.Family)
          (fmtInt (iadd s.indexObjCIDFont 1)) (fmtInt (iadd s.indexObjUnicodeMap 1))) }, none) ∧
    (s.buffer = "" →
      (build CreateEmbeddedFontSubsetName s).1.buffer =
        dictText (CreateEmbeddedFontSubsetName s.Family)
          (fmtInt (iadd s.indexObjCIDFont 1)) (fmtInt (iadd s.indexObjUnicodeMap 1))) ∧
    (-(intLimit : Int) ≤ s.indexObjCIDFont + 1 → s.indexObjCIDFont + 1 < (intLimit : Int) →
      iadd s.indexObjCIDFont 1 = s.indexObjCIDFont + 1) ∧
    (-(intLimit : Int) ≤ s.indexObjUnicodeMap + 1 → s.indexObjUnicodeMap + 1 < (intLimit : Int) →
      iadd s.indexObjUnicodeMap 1 = s.indexObjUnicodeMap + 1) ∧
    (∀ s' : SubsetFontObj, s'.Family = s.Family → s'.indexObjCIDFont = s.indexObjCIDFont →
      s'.indexObjUnicodeMap = s.indexObjUnicodeMap →
      ∃ t, (build CreateEmbeddedFontSubsetName s).1.buffer = s.buffer ++ t ∧
        (build CreateEmbeddedFontSubsetName s').1.buffer = s'.buffer ++ t) := by
  have h1 : "<<\n" ++ "/BaseFont /" = "<<\n/BaseFont /" := by decide
  have h2 : "\n" ++ "/DescendantFonts [" = "\n/DescendantFonts [" := by decide
  have h3 : " 0 R]\n" ++ ("/Encoding /Identity-H\n" ++ ("/Subtype /Type0\n" ++ "/ToUnicode "))
      = " 0 R]\n/Encoding /Identity-H\n/Subtype /Type0\n/ToUnicode " := by decide
  have h4 : " 0 R\n" ++ ("/Type /Font\n" ++ ">>\n") = " 0 R\n/Type /Font\n>>\n" := by decide
  have hbuild : ∀ u : SubsetFontObj, build CreateEmbeddedFontSubsetName u =
      ({ u with buffer := (u.buffer ++ dictText (CreateEmbeddedFontSubsetName u.Family)
          (fmtInt (iadd u.indexObjCIDFont 1)) (fmtInt (iadd u.indexObjUnicodeMap 1))) }, none) := by
    intro u
    unfold build dictText
    simp only [String.append_assoc]
    rw [← h1, ← h2, ← h3, ← h4]
    simp only [String.append_assoc]
  refine ⟨hbuild s, ?_, iadd_one _, iadd_one _, ?_⟩
  · intro hempty
    rw [hbuild s]
    simp [hempty]
  · intro s' hF hi hj
    refine ⟨dictText (CreateEmbeddedFontSubsetName s.Family)
      (fmtInt (iadd s.indexObjCIDFont 1)) (fmtInt (iadd s.indexObjUnicodeMap 1)), ?_, ?_⟩
    · rw [hbuild s]
    · rw [hbuild s', hF, hi, hj]

/-- Witness of C14: with family "Arial" (name function the identity),
`indexObjCIDFont = 5`, `indexObjUnicodeMap = 6` and an empty buffer, the buffer
after `build` is the dictionary with `/DescendantFonts [6 0 R]` and
`/ToUnicode 7 0 R`. -/
theorem build_dictionary_witness :
    (build (fun F => F) arial).1.buffer =
      "<<\n/BaseFont /Arial\n/DescendantFonts [6 0 R]\n/Encoding /Identity-H\n/Subtype /Type0\n/ToUnicode 7 0 R\n/Type /Font\n>>\n" ∧
    (build (fun F => F) arial).2 = none ∧
    iadd 5 1 = 6 ∧ iadd 6 1 = 7 :=
  have h := build_dictionary (fun F => F) arial
  ⟨(h.2.1 rfl).trans (by decide), by rw [h.1],
   h.2.2.1 (by decide) (by decide), h.2.2.2.1 (by decide) (by decide)⟩

/-! ## Invariants of the character map -/

theorem AddChars_ttfp (s s' : SubsetFontObj) (txt : List Int) (e : Option GoError)
    (h : AddChars s txt = some (s', e)) : s'.ttfp = s.ttfp := by
  have h1 := (AddChars_spec txt s s' e h).1
  rw [h1]

theorem AddChars_resolved (s s' : SubsetFontObj) (txt : List Int) (e : Option GoError)
    (h : AddChars s txt = some (s', e))
    (hinv : ∀ c g, s.CharacterToGlyphIndex c = some g →
      CharCodeToGlyphIndex s c = some (g, none)) :
    ∀ c g, s'.CharacterToGlyphIndex c = some g →
      CharCodeToGlyphIndex s' c = some (g, none) := by
  intro c g hc
  rw [CharCodeToGlyphIndex_congr s s' (AddChars_ttfp s s' txt e h) c]
  rcases (AddChars_spec txt s s' e h).2.2.1 c g hc with h5 | ⟨-, h5⟩
  · exact hinv c g h5
  · exact h5

theorem addCharsSeq_resolved : ∀ (texts : List (List Int)) (s s' : SubsetFontObj),
    addCharsSeq s texts = some s' →
    (∀ c g, s.CharacterToGlyphIndex c = some g → CharCodeToGlyphIndex s c = some (g, none)) →
    s'.ttfp = s.ttfp ∧
    ∀ c g, s'.CharacterToGlyphIndex c = some g →
      CharCodeToGlyphIndex s' c = some (g, none) := by
  intro texts
  induction texts with
  | nil =>
    intro s s' h hinv
    simp only [addCharsSeq, Option.some.injEq] at h
    subst h
    exact ⟨rfl, hinv⟩
  | cons txt rest ih =>
    intro s s' h hinv
    cases hc : AddChars s txt with
    | none => simp [addCharsSeq, hc] at h
    | some pr =>
      obtain ⟨s1, e⟩ := pr
      simp only [addCharsSeq, hc] at h
      obtain ⟨h1, h2⟩ := ih s1 s' h (AddChars_resolved s s1 txt e hc hinv)
      exact ⟨h1.trans (AddChars_ttfp s s1 txt e hc), h2⟩

/-- C15. Resolved-key invariant: in the subset `s'` left by any run of `AddChars`
calls (each returning an error or not) started from `init`, the font table is
the starting one, every key `c` of `CharacterToGlyphIndex` with value `g` has
`CharCodeToGlyphIndex(c) = (g, nil)`, and a character whose resolution does not
succeed is not a key. -/
theorem resolved_key_invariant (s s' : SubsetFontObj) (texts : List (List Int))
    (h : addCharsSeq s.init texts = some s') :
    s'.ttfp = s.ttfp ∧
    (∀ c g, s'.CharacterToGlyphIndex c = some g →
      CharCodeToGlyphIndex s c = some (g, none)) ∧
    (∀ c, (∀ g, CharCodeToGlyphIndex s c ≠ some (g, none)) →
      s'.CharacterToGlyphIndex c = none) := by
  have hinit : ∀ c g, s.init.CharacterToGlyphIndex c = some g →
      CharCodeToGlyphIndex s.init c = some (g, none) := by
    intro c g hc
    simp [SubsetFontObj.init, CharMap.empty] at hc
  obtain ⟨h1, h2⟩ := addCharsSeq_resolved texts s.init s' h hinit
  have httfp : s'.ttfp = s.ttfp := h1
  have hkeys : ∀ c g, s'.CharacterToGlyphIndex c = some g →
      CharCodeToGlyphIndex s c = some (g, none) := by
    intro c g hc
    rw [← CharCodeToGlyphIndex_congr s s' httfp c]
    exact h2 c g hc
  refine ⟨httfp, hkeys, ?_⟩
  intro c hfail
  cases hm : s'.CharacterToGlyphIndex c with
  | none => rfl
  | some g => exact absurd (hkeys c g hm) (hfail g)

/-- Witness of C15: on `withCatchAll`, the failed call on `[0x41, 0x20000, 0x42]`
followed by the successful call on `[0x42]` leaves the keys `0x41` and `0x42`,
both resolved, and `0x20000`, whose resolution fails, is not a key. -/
theorem resolved_key_invariant_witness :
    addCharsSeq withCatchAll.init [[0x41, 0x20000, 0x42], [0x42]] = some afterAThenB ∧
    CharCodeToGlyphIndex withCatchAll 0x42 = some (0x42, none) ∧
    afterAThenB.CharacterToGlyphIndex 0x20000 = none :=
  have h : addCharsSeq withCatchAll.init [[0x41, 0x20000, 0x42], [0x42]] = some afterAThenB := rfl
  ⟨h, (resolved_key_invariant withCatchAll afterAThenB _ h).2.1 0x42 0x42 rfl,
   (resolved_key_invariant withCatchAll afterAThenB _ h).2.2 0x20000 (by
      intro g hg
      have hres : CharCodeToGlyphIndex withCatchAll 0x20000
          = some (0, some GoError.notFoundGlyph) := by decide
      rw [hres] at hg
      simp at hg)⟩

/-- C16. The character map only grows: after any returning `AddChars(txt)`, with
or without an error, every key present before is still a key with the same glyph
index; `build` and the setters of the indices, the family and the option leave
`CharacterToGlyphIndex` as it is. (`CharIndex`, `CharWidth`, `KernValueByLeft`,
`CharCodeToGlyphIndex` and `GlyphIndexToPdfWidth` assign no field in the source
and are functions of the subset that return no subset.) -/
theorem map_only_grows (s : SubsetFontObj) (txt : List Int) :
    (∀ s' e, AddChars s txt = some (s', e) →
      ∀ c g, s.CharacterToGlyphIndex c = some g → s'.CharacterToGlyphIndex c = some g) ∧
    (∀ nameOf : String → String,
      (build nameOf s).1.CharacterToGlyphIndex = s.CharacterToGlyphIndex) ∧
    (∀ index, (SetIndexObjCIDFont s index).CharacterToGlyphIndex = s.CharacterToGlyphIndex) ∧
    (∀ index, (SetIndexObjUnicodeMap s index).CharacterToGlyphIndex = s.CharacterToGlyphIndex) ∧
    (∀ familyname, (SetFamily s familyname).CharacterToGlyphIndex = s.CharacterToGlyphIndex) ∧
    (∀ option, (SetTtfFontOption s option).CharacterToGlyphIndex = s.CharacterToGlyphIndex) := by
  refine ⟨?_, fun _ => rfl, fun _ => rfl, fun _ => rfl, fun _ => rfl, fun _ => rfl⟩
  intro s' e h
  exact (AddChars_spec txt s s' e h).2.1

/-- Witness of C16: the call `AddChars` on `[0x42, 0x20000]` from `afterA` ends
with an error, and the key `0x41` registered before still maps to `0x41`. -/
theorem map_only_grows_witness :
    AddChars afterA [0x42, 0x20000] = some (afterAThenB, some GoError.notFoundGlyph) ∧
    afterAThenB.CharacterToGlyphIndex 0x41 = some 0x41 :=
  have h : AddChars afterA [0x42, 0x20000] = some (afterAThenB, some GoError.notFoundGlyph) := rfl
  ⟨h, (map_only_grows afterA [0x42, 0x20000]).1 afterAThenB _ h 0x41 0x41 rfl⟩

/-! ## Range of the format-4 result, the format-12 example, scan safety -/

theorem format4_le_mask (s : SubsetFontObj) (r : Int) (g : Nat) (e : Option GoError)
    (h : charCodeToGlyphIndexFormat4 s r = some (g, e)) : g ≤ 0xFFFF := by
  have hmask : ∀ x : Nat, x &&& 0xFFFF ≤ 0xFFFF := by
    intro x
    rw [mask16]
    omega
  unfold charCodeToGlyphIndexFormat4 at h
  simp only at h
  repeat' split at h
  all_goals simp only [Option.some.injEq, Prod.mk.injEq, reduceCtorEq] at h
  all_goals obtain ⟨hg, -⟩ := h
  all_goals subst hg
  all_goals first | exact Nat.zero_le _ | exact hmask _

/-- C18. 16-bit range: for a code point up to `0xFFFF`, whenever
`CharCodeToGlyphIndex` returns, the glyph index it returns is at most `0xFFFF`,
for every table (any delta, any glyph-id array entry). -/
theorem format4_glyph_16bit (s : SubsetFontObj) (r : Int) (g : Nat) (e : Option GoError)
    (hc : toUint r ≤ 0xFFFF) (h : CharCodeToGlyphIndex s r = some (g, e)) :
    g ≤ 0xFFFF := by
  rw [CharCodeToGlyphIndex_low s r hc] at h
  exact format4_le_mask s r g e h

/-- Witness of C18: in `viaGlyphIdArray` the code point `0x63` reads the entry
65535 and adds delta 3; the result is reduced to 2, below `0xFFFF`. -/
theorem format4_glyph_16bit_witness :
    CharCodeToGlyphIndex viaGlyphIdArray 0x63 = some ((65535 + 3) % 65536, none) ∧
    (65535 + 3) % 65536 ≤ 0xFFFF :=
  have h : CharCodeToGlyphIndex viaGlyphIdArray 0x63 = some ((65535 + 3) % 65536, none) := by
    decide
  ⟨h, format4_glyph_16bit viaGlyphIdArray 0x63 _ none (by decide) h⟩

/-- C19, as stated, fails: with the group `[0x10000, 0x10100, startGlyph 500]`
the lookup of `0x10050` returns `580 = 0x244`, not `0x550 = 1360`. -/
theorem format12_example_counterexample :
    CharCodeToGlyphIndex oneGroup 0x10050 = some (580, none) ∧
    CharCodeToGlyphIndex oneGroup 0x10050 ≠ some (0x550, none) ∧
    (580 : Nat) = 0x244 ∧ (0x550 : Nat) = 1360 := by
  refine ⟨by decide, by decide, by decide, by decide⟩

/-- C19, amended: with the group `[0x10000, 0x10100, startGlyph 500]` the lookup
of `0x10050` succeeds and returns `500 + 0x50`, which is 580 (`0x244`). -/
theorem format12_example :
    CharCodeToGlyphIndex oneGroup 0x10050 = some (500 + 0x50, none) ∧
    (500 + 0x50 : Nat) = 580 := by
  have hhigh := CharCodeToGlyphIndex_high oneGroup 0x10050 (by decide)
  have hscan := scanGroups_first (toUint 0x10050) (toUint_lt 0x10050)
    oneGroup.ttfp.groupingTables 0 ⟨0x10000, 0x10100, 500⟩ rfl (by decide) (by decide)
    (fun j hj => absurd hj (Nat.not_lt_zero j))
  refine ⟨?_, by decide⟩
  rw [hhigh, charCodeToGlyphIndexFormat12, hscan]
  decide

/-- C20. Format-4 scan safety under the catch-all convention: when
`SegCount >= 1`, the four segment arrays have exactly `SegCount` entries and the
last end code is `0xFFFF`, then for every code point `c <= 0xFFFF` the scan stops
at a position `seg < SegCount` with `EndCount[seg] >= c` and `EndCount[k] < c`
for every `k < seg`, the entries `StartCount[seg]`, `IdRangeOffset[seg]` and
`IdDelta[seg]` exist, and when every range offset is 0 `CharCodeToGlyphIndex`
returns a glyph index with a nil error. -/
theorem format4_scan_safe (s : SubsetFontObj) (r : Int)
    (hseg : 1 ≤ s.ttfp.SegCount)
    (hS : s.ttfp.StartCount.length = s.ttfp.SegCount)
    (hE : s.ttfp.EndCount.length = s.ttfp.SegCount)
    (hD : s.ttfp.IdDelta.length = s.ttfp.SegCount)
    (hR : s.ttfp.IdRangeOffset.length = s.ttfp.SegCount)
    (hlast : s.ttfp.EndCount[s.ttfp.SegCount - 1]? = some 0xFFFF)
    (hc : toUint r ≤ 0xFFFF) :
    ∃ seg e, scanSegments s.ttfp.EndCount (toUint r) s.ttfp.SegCount 0 = some seg ∧
      seg < s.ttfp.SegCount ∧
      s.ttfp.EndCount[seg]? = some e ∧ toUint r ≤ e ∧
      (∀ k, k < seg → ∀ ek, s.ttfp.EndCount[k]? = some ek → ek < toUint r) ∧
      (∃ st ro d, s.ttfp.StartCount[seg]? = some st ∧ s.ttfp.IdRangeOffset[seg]? = some ro ∧
        s.ttfp.IdDelta[seg]? = some d) ∧
      ((∀ ro, ro ∈ s.ttfp.IdRangeOffset → ro = 0) →
        ∃ g, CharCodeToGlyphIndex s r = some (g, none)) := by
  obtain ⟨seg, e, -, hlt, he, hve, hfirst, hscan⟩ :=
    scanSegments_exists s.ttfp.EndCount (toUint r) s.ttfp.SegCount 0
      ⟨s.ttfp.SegCount - 1, 0xFFFF, Nat.zero_le _, by omega, hlast, hc⟩
  have hlt' : seg < s.ttfp.SegCount := by omega
  have hSl : seg < s.ttfp.StartCount.length := by omega
  have hRl : seg < s.ttfp.IdRangeOffset.length := by omega
  have hDl : seg < s.ttfp.IdDelta.length := by omega
  refine ⟨seg, e, hscan, hlt', he, hve, fun k hk => hfirst k (Nat.zero_le k) hk,
    ⟨_, _, _, List.getElem?_eq_getElem hSl, List.getElem?_eq_getElem hRl,
      List.getElem?_eq_getElem hDl⟩, ?_⟩
  intro hzero
  have hro : s.ttfp.IdRangeOffset[seg] = 0 := hzero _ (List.getElem_mem hRl)
  rw [CharCodeToGlyphIndex_low s r hc]
  unfold charCodeToGlyphIndexFormat4
  simp only [hscan, List.getElem?_eq_getElem hSl, List.getElem?_eq_getElem hRl,
    List.getElem?_eq_getElem hDl, hro, if_true]
  split
  · exact ⟨_, rfl⟩
  · exact ⟨_, rfl⟩

/-- Witness of C20: `withCatchAll` has two segments, the last with end code
`0xFFFF`, and every range offset 0; the scan for `0x5B` stops at segment 1 and the
lookup returns a glyph index. -/
theorem format4_scan_safe_witness :
    ∃ seg e, scanSegments withCatchAll.ttfp.EndCount (toUint 0x5B) withCatchAll.ttfp.SegCount 0
        = some seg ∧
      seg < withCatchAll.ttfp.SegCount ∧
      withCatchAll.ttfp.EndCount[seg]? = some e ∧ toUint 0x5B ≤ e ∧
      (∀ k, k < seg → ∀ ek, withCatchAll.ttfp.EndCount[k]? = some ek → ek < toUint 0x5B) ∧
      (∃ st ro d, withCatchAll.ttfp.StartCount[seg]? = some st ∧
        withCatchAll.ttfp.IdRangeOffset[seg]? = some ro ∧
        withCatchAll.ttfp.IdDelta[seg]? = some d) ∧
      ((∀ ro, ro ∈ withCatchAll.ttfp.IdRangeOffset → ro = 0) →
        ∃ g, CharCodeToGlyphIndex withCatchAll 0x5B = some (g, none)) :=
  format4_scan_safe withCatchAll 0x5B (by decide) (by decide) (by decide) (by decide)
    (by decide) (by decide) (by decide)

end Gopdf
